import Mathlib

/-!
Verification of the AfriOne Hedera services resilience layer.

Shallow embedding of:
  * `executeWithRetry` (src/hedera-services/src/utils/error-handler.ts)
  * the chunk splitter and chunked upload sessions
    (`HederaFileService.createFile`, `HederaSmartContractService.deployLargeContract`,
     services/hedera/file.service.ts and smart-contract.service.ts)
  * `monitorTransaction` (src/hedera-services/src/utils/transaction-monitor.ts)
  * `HederaConsensusService.submitMessage` / `hashUserId`
    (src/hedera-services/src/services/hedera/consensus.service.ts)
  * `calculateDailyCosts` (src/hedera-services/src/utils/cost-tracker.ts)

Asynchronous TypeScript code is modelled by explicit outcome functions:
an async operation becomes a function from the attempt number to the
outcome (`Except`) of that invocation together with the network calls it
emitted; JavaScript numbers are modelled as exact IEEE-754 binary64
values represented by rationals with explicit round-to-nearest-even.
-/

namespace Afrione

/-! ## executeWithRetry (utils/error-handler.ts)

```ts
export async function executeWithRetry<T>(
  operation: () => Promise<T>,
  maxRetries: number = 3
): Promise<T> {
  for (let attempt = 1; attempt <= maxRetries; attempt++) {
    try {
      return await operation();
    } catch (error: any) {
      if (attempt === maxRetries) throw error;
      const delay = Math.pow(2, attempt) * 1000; // Exponential backoff
      console.warn(`...`);
      await new Promise(resolve => setTimeout(resolve, delay));
    }
  }
  throw new Error('Max retries exceeded');
}
```

The wrapped operation is modelled as `op : Nat → Except ε α × List γ`:
`op k` is the outcome of the k-th invocation (1-based) together with the
list of network calls that invocation emitted before returning or
throwing.  The loop is transcribed structurally on the number of
remaining loop iterations `remaining = maxRetries - attempt + 1`, so the
inner `attempt === maxRetries` test becomes `remaining = 0` after the
pattern `remaining + 1` is consumed. -/

/-- What `executeWithRetry` finally does: return a value, re-throw the last
operation error, or throw the generic post-loop `Error('Max retries exceeded')`. -/
inductive RetryResult (ε α : Type) where
  | ok : α → RetryResult ε α
  | err : ε → RetryResult ε α
  | maxRetriesExceeded : RetryResult ε α
deriving Repr, DecidableEq

/-- The inter-attempt delay computed on line 12 of error-handler.ts:
`const delay = Math.pow(2, attempt) * 1000`. -/
def codeDelay (attempt : Nat) : Nat := 2 ^ attempt * 1000

/-- The reference backoff policy of the spec: `delay(attempt) = base * 2^attempt`. -/
def backoffDelay (base attempt : Nat) : Nat := base * 2 ^ attempt

/-- Observable outcome of one `executeWithRetry` run: the final result, how many
times the operation was invoked, the inter-attempt delays slept (in order), and
the concatenated network calls emitted by all invocations that ran. -/
structure RetryOutcome (ε α γ : Type) where
  result : RetryResult ε α
  invocations : Nat
  delays : List Nat
  calls : List γ
deriving Repr, DecidableEq

/-- The retry loop of `executeWithRetry`, transcribed on the number of remaining
iterations: `executeWithRetryGo op attempt remaining` runs loop iterations
`attempt, attempt+1, …, attempt+remaining-1`; the original call has
`attempt = 1`, `remaining = maxRetries`.  `remaining = 0` with the loop still
unfinished is the fall-through `throw new Error('Max retries exceeded')`. -/
def executeWithRetryGo (op : Nat → Except ε α × List γ) :
    Nat → Nat → RetryOutcome ε α γ
  | _, 0 => ⟨.maxRetriesExceeded, 0, [], []⟩
  | attempt, remaining + 1 =>
    match op attempt with
    | (.ok a, cs) => ⟨.ok a, 1, [], cs⟩
    | (.error e, cs) =>
      if remaining = 0 then
        ⟨.err e, 1, [], cs⟩
      else
        let rest := executeWithRetryGo op (attempt + 1) remaining
        ⟨rest.result, rest.invocations + 1, codeDelay attempt :: rest.delays,
          cs ++ rest.calls⟩

/-- `executeWithRetry` with network-call tracing: run the loop from attempt 1. -/
def executeWithRetryT (op : Nat → Except ε α × List γ) (maxRetries : Nat) :
    RetryOutcome ε α γ :=
  executeWithRetryGo op 1 maxRetries

/-- `executeWithRetry` for an operation that emits no traced calls. -/
def executeWithRetry (op : Nat → Except ε α) (maxRetries : Nat) :
    RetryOutcome ε α Unit :=
  executeWithRetryT (fun k => (op k, [])) maxRetries

/-! Characterization lemmas for the retry loop. -/

/-- Peeling the first index off a shifted `List.range` map. -/
theorem rangeMapShift {β : Type} (f : Nat → β) (a m : Nat) :
    (List.range (m + 1)).map (fun j => f (a + j)) =
      f a :: (List.range m).map (fun j => f (a + 1 + j)) := by
  rw [List.range_succ_eq_map]
  simp only [List.map_cons, List.map_map, Nat.add_zero]
  congr 1
  apply List.map_congr_left
  intro j _
  simp only [Function.comp_apply]
  congr 1
  omega

/-- Peeling the first index off a shifted `List.range` map, flattened. -/
theorem rangeMapShiftFlatten {β : Type} (g : Nat → List β) (a m : Nat) :
    ((List.range (m + 1)).map (fun j => g (a + j))).flatten =
      g a ++ ((List.range m).map (fun j => g (a + 1 + j))).flatten := by
  rw [rangeMapShift g a m, List.flatten_cons]

/-- If every attempt in the window fails, the loop performs all `remaining`
invocations, sleeps after each non-final one, and re-throws the error of the
final attempt unchanged. -/
theorem executeWithRetryGo_allFail (op : Nat → Except ε α × List γ)
    (errs : Nat → ε) (calls : Nat → List γ) :
    ∀ remaining attempt, 1 ≤ remaining →
    (∀ k, attempt ≤ k → k < attempt + remaining → op k = (.error (errs k), calls k)) →
    (executeWithRetryGo op attempt remaining).result = .err (errs (attempt + remaining - 1)) ∧
    (executeWithRetryGo op attempt remaining).invocations = remaining ∧
    (executeWithRetryGo op attempt remaining).delays =
      (List.range (remaining - 1)).map (fun j => codeDelay (attempt + j)) ∧
    (executeWithRetryGo op attempt remaining).calls =
      ((List.range remaining).map (fun j => calls (attempt + j))).flatten := by
  intro remaining
  induction remaining with
  | zero => omega
  | succ m ih =>
    intro attempt _ hfail
    have h0 : op attempt = (.error (errs attempt), calls attempt) :=
      hfail attempt le_rfl (by omega)
    rcases Nat.eq_zero_or_pos m with hm | hm
    · subst hm
      rw [rangeMapShiftFlatten]
      simp [executeWithRetryGo, h0]
    · obtain ⟨h1, h2, h3, h4⟩ :=
        ih (attempt + 1) hm (fun k hk1 hk2 => hfail k (by omega) (by omega))
      have hm0 : ¬ m = 0 := by omega
      refine ⟨?_, ?_, ?_, ?_⟩ <;>
        simp only [executeWithRetryGo, h0, if_neg hm0]
      · rw [h1]
        have h5 : attempt + 1 + m - 1 = attempt + (m + 1) - 1 := by omega
        rw [h5]
      · rw [h2]
      · rw [h3, show (m + 1 - 1) = (m - 1) + 1 by omega, rangeMapShift]
      · rw [h4, rangeMapShiftFlatten]

/-- If the first `m` attempts of the window fail and attempt `attempt + m`
succeeds (with `m < remaining`), the loop stops at the success with `m + 1`
invocations and exactly `m` delays, one after each failed attempt. -/
theorem executeWithRetryGo_failThenOk (op : Nat → Except ε α × List γ)
    (errs : Nat → ε) (calls : Nat → List γ) (v : α) (cv : List γ) :
    ∀ m remaining attempt, m < remaining →
    (∀ k, attempt ≤ k → k < attempt + m → op k = (.error (errs k), calls k)) →
    op (attempt + m) = (.ok v, cv) →
    (executeWithRetryGo op attempt remaining).result = .ok v ∧
    (executeWithRetryGo op attempt remaining).invocations = m + 1 ∧
    (executeWithRetryGo op attempt remaining).delays =
      (List.range m).map (fun j => codeDelay (attempt + j)) ∧
    (executeWithRetryGo op attempt remaining).calls =
      (((List.range m).map (fun j => calls (attempt + j))).flatten) ++ cv := by
  intro m
  induction m with
  | zero =>
    intro remaining attempt hlt _ hok
    obtain ⟨r, hr⟩ : ∃ r, remaining = r + 1 := ⟨remaining - 1, by omega⟩
    subst hr
    simp only [Nat.add_zero] at hok
    simp [executeWithRetryGo, hok]
  | succ p ih =>
    intro remaining attempt hlt hfail hok
    obtain ⟨r, hr⟩ : ∃ r, remaining = r + 1 := ⟨remaining - 1, by omega⟩
    subst hr
    have h0 : op attempt = (.error (errs attempt), calls attempt) :=
      hfail attempt le_rfl (by omega)
    obtain ⟨h1, h2, h3, h4⟩ := ih r (attempt + 1) (by omega)
      (fun k hk1 hk2 => hfail k (by omega) (by omega))
      (by rw [show attempt + 1 + p = attempt + (p + 1) by omega]; exact hok)
    have hr0 : ¬ r = 0 := by omega
    refine ⟨?_, ?_, ?_, ?_⟩ <;>
      simp only [executeWithRetryGo, h0, if_neg hr0]
    · rw [h1]
    · rw [h2]
    · rw [h3, rangeMapShift]
    · rw [h4, rangeMapShiftFlatten, List.append_assoc]

/-- Soundness of the loop: it never reaches the generic post-loop throw when at
least one iteration runs; a returned value comes from some invocation in the
window; a thrown error is exactly what the final iteration's invocation threw. -/
theorem executeWithRetryGo_sound (op : Nat → Except ε α × List γ) :
    ∀ remaining attempt, 1 ≤ remaining →
    (executeWithRetryGo op attempt remaining).result ≠ .maxRetriesExceeded ∧
    (∀ a, (executeWithRetryGo op attempt remaining).result = .ok a →
      ∃ k, attempt ≤ k ∧ k < attempt + remaining ∧ (op k).1 = .ok a) ∧
    (∀ e, (executeWithRetryGo op attempt remaining).result = .err e →
      (op (attempt + remaining - 1)).1 = .error e) := by
  intro remaining
  induction remaining with
  | zero => omega
  | succ m ih =>
    intro attempt _
    rcases hop : op attempt with ⟨res, cs⟩
    cases res with
    | ok a =>
      refine ⟨?_, ?_, ?_⟩ <;> simp only [executeWithRetryGo, hop]
      · intro hcon; exact RetryResult.noConfusion hcon
      · intro b hb
        simp only [RetryResult.ok.injEq] at hb
        exact ⟨attempt, le_rfl, by omega, by rw [hop, hb]⟩
      · intro e he
        exact absurd he (by intro hcon; exact RetryResult.noConfusion hcon)
    | error e0 =>
      rcases Nat.eq_zero_or_pos m with hm | hm
      · subst hm
        refine ⟨?_, ?_, ?_⟩ <;> simp only [executeWithRetryGo, hop, if_pos rfl]
        · intro hcon; exact RetryResult.noConfusion hcon
        · intro b hb
          exact absurd hb (by intro hcon; exact RetryResult.noConfusion hcon)
        · intro e he
          have h8 : e0 = e := by simpa using he
          subst h8
          rw [show attempt + 1 - 1 = attempt by omega, hop]
      · obtain ⟨hne, hok, herr⟩ := ih (attempt + 1) hm
        refine ⟨?_, ?_, ?_⟩ <;>
          simp only [executeWithRetryGo, hop, if_neg (by omega : ¬ m = 0)]
        · exact hne
        · intro b hb
          obtain ⟨k, hk1, hk2, hk3⟩ := hok b hb
          exact ⟨k, by omega, by omega, hk3⟩
        · intro e he
          have h6 := herr e he
          rw [show attempt + (m + 1) - 1 = attempt + 1 + m - 1 by omega]
          exact h6

/-- C3: an always-failing operation is invoked exactly `maxRetries` times and
the error finally propagated is the operation's own last error, unchanged —
never the generic post-loop substitute. -/
theorem executeWithRetry_allFail (op : Nat → Except ε α) (errs : Nat → ε)
    (maxRetries : Nat) (hmax : 1 ≤ maxRetries)
    (hfail : ∀ k, 1 ≤ k → k ≤ maxRetries → op k = .error (errs k)) :
    (executeWithRetry op maxRetries).result = .err (errs maxRetries) ∧
    (executeWithRetry op maxRetries).invocations = maxRetries := by
  have h := executeWithRetryGo_allFail (fun k => (op k, ([] : List Unit)))
    errs (fun _ => []) maxRetries 1 hmax
    (fun k hk1 hk2 => by simp only [hfail k hk1 (by omega)])
  unfold executeWithRetry executeWithRetryT
  refine ⟨?_, h.2.1⟩
  rw [h.1, show 1 + maxRetries - 1 = maxRetries by omega]

/-- Closed witness for `executeWithRetry_allFail`: three attempts that throw
errors 10, 20, 30 produce final error 30 after exactly 3 invocations. -/
theorem executeWithRetry_allFail_witness :
    (executeWithRetry (fun k => (.error (10 * k) : Except Nat Nat)) 3).result =
      .err 30 ∧
    (executeWithRetry (fun k => (.error (10 * k) : Except Nat Nat)) 3).invocations = 3 := by
  have h := executeWithRetry_allFail (fun k => (.error (10 * k) : Except Nat Nat))
    (fun k => 10 * k) 3 (by decide) (fun k _ _ => rfl)
  simpa using h

/-- C4: an operation that fails exactly `k < maxRetries` times and then succeeds
returns the success value, is invoked exactly `k + 1` times, and performs exactly
`k` inter-attempt delays, the `j`-th delay being at least
`BackoffPolicy.delay(j)` with the default base 1000 ms. -/
theorem executeWithRetry_failThenOk (op : Nat → Except ε α) (errs : Nat → ε)
    (v : α) (maxRetries k : Nat) (hk : k < maxRetries)
    (hfail : ∀ j, 1 ≤ j → j ≤ k → op j = .error (errs j))
    (hok : op (k + 1) = .ok v) :
    (executeWithRetry op maxRetries).result = .ok v ∧
    (executeWithRetry op maxRetries).invocations = k + 1 ∧
    (executeWithRetry op maxRetries).delays.length = k ∧
    (∀ j, j < k →
      backoffDelay 1000 (j + 1) ≤ (executeWithRetry op maxRetries).delays.getD j 0) := by
  obtain ⟨h1, h2, h3, h4⟩ :=
    executeWithRetryGo_failThenOk (fun j => (op j, ([] : List Unit)))
      errs (fun _ => []) v [] k maxRetries 1 hk
      (fun j hj1 hj2 => by simp only [hfail j hj1 (by omega)])
      (by simp only [show 1 + k = k + 1 by omega, hok])
  unfold executeWithRetry executeWithRetryT
  refine ⟨h1, h2, ?_, ?_⟩
  · rw [h3, List.length_map, List.length_range]
  · intro j hj
    rw [h3]
    have hjlen : j < ((List.range k).map (fun i => codeDelay (1 + i))).length := by
      rw [List.length_map, List.length_range]; exact hj
    rw [List.getD_eq_getElem _ _ hjlen, List.getElem_map, List.getElem_range]
    simp only [codeDelay, backoffDelay, show 1 + j = j + 1 by omega]
    omega

/-- Closed witness for `executeWithRetry_failThenOk`: failures on attempts 1 and
2, success on attempt 3, within maxRetries = 3. -/
theorem executeWithRetry_failThenOk_witness :
    (executeWithRetry
      (fun j => if j ≤ 2 then (.error j : Except Nat Nat) else .ok 99) 3).result = .ok 99 ∧
    (executeWithRetry
      (fun j => if j ≤ 2 then (.error j : Except Nat Nat) else .ok 99) 3).invocations = 3 ∧
    (executeWithRetry
      (fun j => if j ≤ 2 then (.error j : Except Nat Nat) else .ok 99) 3).delays.length = 2 := by
  have h := executeWithRetry_failThenOk
    (fun j => if j ≤ 2 then (.error j : Except Nat Nat) else .ok 99)
    (fun j => j) 99 3 2 (by decide)
    (fun j hj1 hj2 => by simp only [if_pos hj2])
    (by simp)
  exact ⟨h.1, h.2.1, h.2.2.1⟩

/-- C5: the delay constant used between retry attempts equals the exponential
reference policy `base * 2^attempt` with base 1000 ms, giving 2000, 4000, 8000 ms
for attempts 1, 2, 3, and is monotonically non-decreasing in the attempt. -/
theorem codeDelay_spec :
    (∀ attempt, codeDelay attempt = backoffDelay 1000 attempt) ∧
    codeDelay 1 = 2000 ∧ codeDelay 2 = 4000 ∧ codeDelay 3 = 8000 ∧
    (∀ a b, a ≤ b → codeDelay a ≤ codeDelay b) := by
  refine ⟨fun attempt => by simp [codeDelay, backoffDelay, Nat.mul_comm],
    by decide, by decide, by decide, ?_⟩
  intro a b hab
  have hpow : 2 ^ a ≤ 2 ^ b := Nat.pow_le_pow_right (by norm_num) hab
  simp only [codeDelay]
  exact Nat.mul_le_mul_right 1000 hpow

/-- Closed witness for `codeDelay_spec`, discharging the monotonicity hypothesis
at attempts 2 ≤ 5. -/
theorem codeDelay_spec_witness :
    codeDelay 1 = 2000 ∧ codeDelay 2 ≤ codeDelay 5 :=
  ⟨codeDelay_spec.2.1, codeDelay_spec.2.2.2.2 2 5 (by decide)⟩

/-- C10: with at least one permitted attempt, the final result of
`executeWithRetry` is either a value returned by some invocation of the
operation or the error thrown by the final invocation; the generic post-loop
`Error('Max retries exceeded')` is unreachable. -/
theorem executeWithRetry_result_sound (op : Nat → Except ε α) (maxRetries : Nat)
    (hmax : 1 ≤ maxRetries) :
    (executeWithRetry op maxRetries).result ≠ .maxRetriesExceeded ∧
    (∀ a, (executeWithRetry op maxRetries).result = .ok a →
      ∃ k, 1 ≤ k ∧ k ≤ maxRetries ∧ op k = .ok a) ∧
    (∀ e, (executeWithRetry op maxRetries).result = .err e →
      op maxRetries = .error e) := by
  obtain ⟨h1, h2, h3⟩ :=
    executeWithRetryGo_sound (fun k => (op k, ([] : List Unit))) maxRetries 1 hmax
  unfold executeWithRetry executeWithRetryT
  refine ⟨h1, ?_, ?_⟩
  · intro a ha
    obtain ⟨k, hk1, hk2, hk3⟩ := h2 a ha
    exact ⟨k, hk1, by omega, hk3⟩
  · intro e he
    have h4 := h3 e he
    rwa [show 1 + maxRetries - 1 = maxRetries by omega] at h4

/-- Closed witness for `executeWithRetry_result_sound` at a concrete
always-succeeding operation with maxRetries = 3. -/
theorem executeWithRetry_result_sound_witness :
    (executeWithRetry (fun _ => (.ok 5 : Except Nat Nat)) 3).result ≠
      .maxRetriesExceeded :=
  (executeWithRetry_result_sound (fun _ => (.ok 5 : Except Nat Nat)) 3 (by decide)).1

/-! ## Chunk splitter (file.service.ts createFile / smart-contract.service.ts
deployLargeContract)

```ts
const chunks: Buffer[] = [];
const chunkSize = 6144; // 6KB
for (let i = 0; i < contents.length; i += chunkSize) {
  chunks.push(contents.slice(i, i + chunkSize));
}
```

`deployLargeContract` uses the same scheme with chunk size 4096:
chunk 0 is `bytecode.slice(0, 4096)` and the while-loop pushes
`bytecode.slice(offset, offset + 4096)` for `offset = 4096, 8192, …`.
A `Buffer` is a byte list; `buf.slice(i, i + n)` is `(p.drop i).take n`.
The index loop is transcribed with explicit fuel (`p.length + 1` steps are
always enough since `i` grows by `n ≥ 1` per iteration). -/

/-- The chunk size used by `HederaFileService.createFile` (6 KB). -/
def chunkSize : Nat := 6144

/-- The chunk size used by `HederaSmartContractService.deployLargeContract`. -/
def contractChunkSize : Nat := 4096

/-- `buf.slice(i, i + n)`: the bytes of `p` in range `[i, min (i+n) p.length)`. -/
def slice (p : List α) (i n : Nat) : List α := (p.drop i).take n

/-- The chunking loop: starting at offset `i`, push `slice p i n` and advance
`i` by `n` while `i < p.length`.  `fuel` bounds the iteration count. -/
def splitChunksGo (p : List α) (n : Nat) : Nat → Nat → List (List α)
  | 0, _ => []
  | fuel + 1, i =>
    if i < p.length then slice p i n :: splitChunksGo p n fuel (i + n) else []

/-- The splitter of `createFile` / `deployLargeContract`: all slices
`p.slice(i, i+n)` for `i = 0, n, 2n, …` while `i < p.length`. -/
def splitChunks (p : List α) (n : Nat) : List (List α) :=
  splitChunksGo p n (p.length + 1) 0

/-- Reassembly is left-to-right concatenation of the chunks. -/
def reassemble (chunks : List (List α)) : List α := chunks.flatten

/-- When the offset is at or past the end, the chunking loop stops. -/
theorem splitChunksGo_stop (p : List α) (n : Nat) (fuel i : Nat)
    (hi : ¬ i < p.length) : splitChunksGo p n fuel i = [] := by
  cases fuel with
  | zero => rfl
  | succ f => simp only [splitChunksGo, if_neg hi]

/-- Concatenating the chunks produced from offset `i` restores `p.drop i`. -/
theorem splitChunksGo_flatten (p : List α) (n : Nat) (hn : 0 < n) :
    ∀ fuel i, p.length - i ≤ fuel →
    (splitChunksGo p n fuel i).flatten = p.drop i := by
  intro fuel
  induction fuel with
  | zero =>
    intro i hfi
    rw [List.drop_eq_nil_iff.mpr (by omega)]
    rfl
  | succ f ih =>
    intro i hfi
    by_cases hi : i < p.length
    · simp only [splitChunksGo, if_pos hi, List.flatten_cons]
      rw [ih (i + n) (by omega), slice]
      rw [show p.drop (i + n) = (p.drop i).drop n by rw [List.drop_drop]]
      exact List.take_append_drop n (p.drop i)
    · rw [splitChunksGo_stop p n _ i hi, List.drop_eq_nil_iff.mpr (by omega)]
      rfl

/-- Chunk `j` (counting from the chunk at offset `i`) is exactly the slice at
offset `i + j*n`, and exists precisely when that offset is in range. -/
theorem splitChunksGo_get (p : List α) (n : Nat) (hn : 0 < n) :
    ∀ fuel i, p.length - i ≤ fuel → ∀ j,
    (splitChunksGo p n fuel i).get? j =
      if i + j * n < p.length then some (slice p (i + j * n) n) else none := by
  intro fuel
  induction fuel with
  | zero =>
    intro i hfi j
    rw [if_neg (by omega)]
    rfl
  | succ f ih =>
    intro i hfi j
    by_cases hi : i < p.length
    · simp only [splitChunksGo, if_pos hi]
      cases j with
      | zero =>
        simp only [List.get?_cons_zero, Nat.zero_mul, Nat.add_zero, if_pos hi]
      | succ m =>
        simp only [List.get?_cons_succ]
        rw [ih (i + n) (by omega) m]
        have harith : i + n + m * n = i + (m + 1) * n := by ring
        rw [harith]
    · rw [splitChunksGo_stop p n _ i hi, if_neg (by omega)]
      rfl

/-- The last chunk produced from offset `i < p.length` has length
`(p.length - i) % n`, or `n` when that remainder is 0. -/
theorem splitChunksGo_getLast (p : List α) (n : Nat) (hn : 0 < n) :
    ∀ fuel i, i < p.length → p.length - i ≤ fuel →
    ((splitChunksGo p n fuel i).getLast?.map List.length) =
      some (if (p.length - i) % n = 0 then n else (p.length - i) % n) := by
  intro fuel
  induction fuel with
  | zero => omega
  | succ f ih =>
    intro i hi hfi
    simp only [splitChunksGo, if_pos hi]
    by_cases h2 : i + n < p.length
    · have hrec := ih (i + n) h2 (by omega)
      rcases hrest : splitChunksGo p n f (i + n) with _ | ⟨y, t⟩
      · rw [hrest] at hrec
        exact absurd hrec (by simp)
      · rw [hrest] at hrec
        rw [List.getLast?_cons_cons, hrec]
        have hmod : (p.length - i) % n = (p.length - (i + n)) % n := by
          rw [show p.length - (i + n) = p.length - i - n by omega]
          exact Nat.mod_eq_sub_mod (by omega)
        rw [hmod]
    · rw [splitChunksGo_stop p n f (i + n) h2]
      show some (slice p i n).length =
        some (if (p.length - i) % n = 0 then n else (p.length - i) % n)
      refine congrArg some ?_
      rw [slice, List.length_take, List.length_drop]
      rcases Nat.lt_or_ge (p.length - i) n with hlt | hge
      · rw [Nat.mod_eq_of_lt hlt, if_neg (by omega)]
        omega
      · have heq : p.length - i = n := by omega
        rw [heq, Nat.mod_self, if_pos rfl]
        omega

/-- C2: for every payload `p` and chunk size `n > 0`, the splitter used by
`createFile`/`deployLargeContract` produces chunk `j` covering exactly byte
range `[j*n, min ((j+1)*n) p.length)`; every chunk except possibly the last has
length exactly `n`; the last chunk has length `p.length % n` (or `n` when the
remainder is 0 and `p` is non-empty); and reassembling the chunks in ascending
order reproduces `p` exactly. -/
theorem splitChunks_spec (p : List α) (n : Nat) (hn : 0 < n) :
    reassemble (splitChunks p n) = p ∧
    (∀ j, (splitChunks p n).get? j =
      if j * n < p.length then some ((p.drop (j * n)).take n) else none) ∧
    (∀ j, j + 1 < (splitChunks p n).length →
      ((splitChunks p n).getD j []).length = n) ∧
    (p ≠ [] → ((splitChunks p n).getLast?.map List.length) =
      some (if p.length % n = 0 then n else p.length % n)) := by
  have hget := splitChunksGo_get p n hn (p.length + 1) 0 (by omega)
  refine ⟨?_, ?_, ?_, ?_⟩
  · unfold reassemble splitChunks
    rw [splitChunksGo_flatten p n hn (p.length + 1) 0 (by omega), List.drop_zero]
  · intro j
    have h := hget j
    simpa only [Nat.zero_add, slice] using h
  · intro j hj
    have hj1 : (splitChunks p n).get? (j + 1) ≠ none := by
      rw [ne_eq, List.get?_eq_none]
      omega
    have hj1r := hget (j + 1)
    unfold splitChunks at hj1
    rw [hj1r] at hj1
    have hrange : 0 + (j + 1) * n < p.length := by
      by_contra hcon
      rw [if_neg hcon] at hj1
      exact hj1 rfl
    have h5 : (j + 1) * n = j * n + n := by ring
    have hjn : 0 + j * n < p.length := by omega
    have hjget := hget j
    rw [if_pos hjn] at hjget
    have hgetd : (splitChunks p n).getD j [] = slice p (0 + j * n) n := by
      unfold splitChunks
      rw [List.getD_eq_getElem?_getD, ← List.get?_eq_getElem?, hjget]
      rfl
    rw [hgetd, slice, List.length_take, List.length_drop]
    omega
  · intro hp
    have hlen : 0 < p.length := List.length_pos.mpr hp
    have h := splitChunksGo_getLast p n hn (p.length + 1) 0 (by omega) (by omega)
    unfold splitChunks
    rw [h, Nat.sub_zero]

/-- Closed witness for `splitChunks_spec`: a 5-byte payload with chunk size 2
splits into [2,2,1]-byte chunks that reassemble to the payload. -/
theorem splitChunks_spec_witness :
    reassemble (splitChunks [10, 11, 12, 13, 14] 2) = [10, 11, 12, 13, 14] ∧
    ((splitChunks [10, 11, 12, 13, 14] 2).getLast?.map List.length) = some 1 := by
  have h := splitChunks_spec [10, 11, 12, 13, 14] 2 (by decide)
  refine ⟨h.1, ?_⟩
  have h4 := h.2.2.2 (by decide)
  rw [h4]
  rfl

/-! ## Chunked upload sessions (createFile / deployLargeContract)

Both methods wrap one closure in `executeWithRetry`; inside the closure the
create call is executed first, then the append calls in index order (and, for
`deployLargeContract`, a final `ContractCreateTransaction`).  A fault model
`fail : Nat → Bool` says whether the c-th network call of one closure execution
throws; the closure aborts at the first throw.  The calls issued (including the
failing one, whose transaction was submitted before the error was observed) are
traced.  `storeFileMetadata` / `monitorTransaction` at the end of `createFile`
are external hooks that issue no create/append calls and are omitted from the
wire trace. -/

/-- A network call observable during a chunked upload session. -/
inductive UploadCall (α : Type) where
  | create : List α → UploadCall α
  | append : List α → UploadCall α
  | contractCreate : UploadCall α
deriving Repr, DecidableEq

/-- The append loop: issue one `FileAppendTransaction` per chunk in order
(call indices `i, i+1, …`), stopping at the first failed call. -/
def runAppends (fail : Nat → Bool) :
    Nat → List (List α) → Except Unit Unit × List (UploadCall α)
  | _, [] => (.ok (), [])
  | i, c :: rest =>
    if fail i then (.error (), [.append c])
    else
      let r := runAppends fail (i + 1) rest
      (r.1, .append c :: r.2)

/-- One execution of the closure inside `createFile`: split into 6144-byte
chunks, create with `chunks[0]`, then append `chunks[1..]` in order.
Call index 0 is the create, call index `i ≥ 1` the append of chunk `i`. -/
def createFileSession (contents : List α) (fail : Nat → Bool) :
    Except Unit Unit × List (UploadCall α) :=
  let chunks := splitChunks contents chunkSize
  if fail 0 then (.error (), [.create (chunks.headD [])])
  else
    let r := runAppends fail 1 (chunks.drop 1)
    (r.1, .create (chunks.headD []) :: r.2)

/-- One execution of the closure inside `deployLargeContract`: create with
`bytecode.slice(0, 4096)`, while-loop appending 4096-byte slices from offset
4096, then one `ContractCreateTransaction` from the file. -/
def deployLargeSession (bytecode : List α) (fail : Nat → Bool) :
    Except Unit Unit × List (UploadCall α) :=
  let firstChunk := slice bytecode 0 contractChunkSize
  if fail 0 then (.error (), [.create firstChunk])
  else
    let appendChunks :=
      splitChunksGo bytecode contractChunkSize (bytecode.length + 1) contractChunkSize
    let r := runAppends fail 1 appendChunks
    match r.1 with
    | .error e => (.error e, .create firstChunk :: r.2)
    | .ok _ =>
      if fail (1 + appendChunks.length) then
        (.error (), .create firstChunk :: (r.2 ++ [.contractCreate]))
      else
        (.ok (), .create firstChunk :: (r.2 ++ [.contractCreate]))

/-- `createFile`: the whole session closure handed to `executeWithRetry`
(the code calls it with the default `maxRetries = 3`).  `faults k` is the fault
model seen by the k-th closure execution. -/
def createFileNet (contents : List α) (faults : Nat → Nat → Bool)
    (maxRetries : Nat) : RetryOutcome Unit Unit (UploadCall α) :=
  executeWithRetryT (fun k => createFileSession contents (faults k)) maxRetries

/-- `deployLargeContract`: the whole session closure handed to
`executeWithRetry` (default `maxRetries = 3` in the code). -/
def deployLargeNet (bytecode : List α) (faults : Nat → Nat → Bool)
    (maxRetries : Nat) : RetryOutcome Unit Unit (UploadCall α) :=
  executeWithRetryT (fun k => deployLargeSession bytecode (faults k)) maxRetries

/-- Every execution of the `createFile` closure starts by issuing the create
call carrying chunk 0 — also on retries. -/
theorem createFileSession_head (contents : List α) (fail : Nat → Bool) :
    (createFileSession contents fail).2.head? =
      some (.create ((splitChunks contents chunkSize).headD [])) := by
  unfold createFileSession
  by_cases h : fail 0
  · rw [if_pos h]
    rfl
  · rw [if_neg h]
    rfl

/-- Every execution of the `deployLargeContract` closure starts by issuing the
create call carrying `bytecode.slice(0, 4096)` — also on retries. -/
theorem deployLargeSession_head (bytecode : List α) (fail : Nat → Bool) :
    (deployLargeSession bytecode fail).2.head? =
      some (.create (slice bytecode 0 contractChunkSize)) := by
  unfold deployLargeSession
  by_cases h0 : fail 0
  · rw [if_pos h0]
    rfl
  · rw [if_neg h0]
    rcases hr : (runAppends fail 1
        (splitChunksGo bytecode contractChunkSize (bytecode.length + 1)
          contractChunkSize)).1 with e | v
    · simp only [hr]
      rfl
    · simp only [hr]
      by_cases h1 : fail (1 + (splitChunksGo bytecode contractChunkSize
          (bytecode.length + 1) contractChunkSize).length)
      · rw [if_pos h1]
        rfl
      · rw [if_neg h1]
        rfl

/-- A whole-closure retry run in which the first `m` executions throw and
execution `m + 1` succeeds: the traced calls are the concatenation of the
complete per-execution call lists. -/
theorem executeWithRetryT_failThenOk (op : Nat → Except Unit Unit × List γ)
    (maxRetries m : Nat) (hm : m < maxRetries)
    (hfail : ∀ k, 1 ≤ k → k ≤ m → (op k).1 = .error ())
    (hok : (op (m + 1)).1 = .ok ()) :
    (executeWithRetryT op maxRetries).result = .ok () ∧
    (executeWithRetryT op maxRetries).invocations = m + 1 ∧
    (executeWithRetryT op maxRetries).calls =
      ((List.range m).map (fun j => (op (1 + j)).2)).flatten ++ (op (m + 1)).2 := by
  have hop : ∀ k, 1 ≤ k → k < 1 + m → op k = (.error (), (op k).2) :=
    fun k hk1 hk2 => Prod.ext (hfail k hk1 (by omega)) rfl
  have hokp : op (1 + m) = (.ok (), (op (m + 1)).2) := by
    rw [show 1 + m = m + 1 by omega]
    exact Prod.ext hok rfl
  obtain ⟨h1, h2, h3, h4⟩ := executeWithRetryGo_failThenOk
    op (fun _ => ()) (fun k => (op k).2) () ((op (m + 1)).2)
    m maxRetries 1 hm hop hokp
  exact ⟨h1, h2, h4⟩

/-- Unfolding step of the chunking loop while the offset is in range. -/
theorem splitChunksGo_step (p : List α) (n fuel i : Nat) (hi : i < p.length) :
    splitChunksGo p n (fuel + 1) i = slice p i n :: splitChunksGo p n fuel (i + n) := by
  simp only [splitChunksGo, if_pos hi]

/-- Does an upload call carry a `FileCreateTransaction`? -/
def isCreateCall : UploadCall α → Bool
  | .create _ => true
  | _ => false

/-- The fault model of the C1 counterexample: in the first closure execution
the network call with index 1 (the append of chunk 1) throws; every other call
of every execution succeeds. -/
def faultC1 : Nat → Nat → Bool := fun k c => k == 1 && c == 1

/-- The 6145-byte payload splits into a full 6144-byte chunk and `[0]`. -/
theorem splitChunks_6145 :
    splitChunks (List.replicate 6145 (0 : Nat)) chunkSize =
      [List.replicate 6144 0, [0]] := by
  have hlen : (List.replicate 6145 (0 : Nat)).length = 6145 := by
    rw [List.length_replicate]
  unfold splitChunks
  rw [hlen]
  rw [splitChunksGo_step _ _ _ _ (by rw [hlen]; norm_num)]
  rw [Nat.zero_add]
  rw [show (6145 : Nat) = 6144 + 1 from rfl]
  rw [splitChunksGo_step _ _ _ _ (by rw [hlen]; norm_num [chunkSize])]
  rw [splitChunksGo_stop _ _ _ _ (by rw [hlen]; norm_num [chunkSize])]
  simp only [slice, chunkSize, List.drop_replicate, List.take_replicate,
    List.drop_zero]
  norm_num

/-- First execution of the createFile closure under `faultC1`: the create
succeeds, the append of chunk 1 throws; both calls were submitted. -/
theorem createFileSession_faultC1_run1 :
    createFileSession (List.replicate 6145 (0 : Nat)) (faultC1 1) =
      (.error (), [.create (List.replicate 6144 0), .append [0]]) := by
  simp only [createFileSession, splitChunks_6145]
  rfl

/-- Second execution of the createFile closure under `faultC1`: everything
succeeds, and both the create and the append are submitted again. -/
theorem createFileSession_faultC1_run2 :
    createFileSession (List.replicate 6145 (0 : Nat)) (faultC1 2) =
      (.ok (), [.create (List.replicate 6144 0), .append [0]]) := by
  simp only [createFileSession, splitChunks_6145]
  rfl

/-- The retried operation closure of the C1 counterexample run: the `createFile`
session over the 6145-byte payload under `faultC1`, as handed to
`executeWithRetry`. -/
def createFileOpC1 : Nat → Except Unit Unit × List (UploadCall Nat) :=
  fun k => createFileSession (List.replicate 6145 0) (faultC1 k)

/-- C1 amended: in both `createFile` and `deployLargeContract` the
RetryExecutor wraps the whole session closure, not each call: if the first `m`
closure executions throw (for example because an append failed) and execution
`m + 1` succeeds, the wire trace is the concatenation of the complete traces of
all `m + 1` executions — each retry re-runs the session from the create call,
re-submitting previously applied chunks — and every execution's trace starts
with the create call carrying chunk 0. -/
theorem chunkedUploadNet_session_retry
    (contents bytecode : List α) (faults gaults : Nat → Nat → Bool)
    (maxRetries m mg : Nat) :
    (m < maxRetries →
      (∀ k, 1 ≤ k → k ≤ m → (createFileSession contents (faults k)).1 = .error ()) →
      (createFileSession contents (faults (m + 1))).1 = .ok () →
      (createFileNet contents faults maxRetries).result = .ok () ∧
      (createFileNet contents faults maxRetries).invocations = m + 1 ∧
      (createFileNet contents faults maxRetries).calls =
        ((List.range m).map (fun j => (createFileSession contents (faults (1 + j))).2)).flatten
          ++ (createFileSession contents (faults (m + 1))).2) ∧
    (mg < maxRetries →
      (∀ k, 1 ≤ k → k ≤ mg → (deployLargeSession bytecode (gaults k)).1 = .error ()) →
      (deployLargeSession bytecode (gaults (mg + 1))).1 = .ok () →
      (deployLargeNet bytecode gaults maxRetries).result = .ok () ∧
      (deployLargeNet bytecode gaults maxRetries).invocations = mg + 1 ∧
      (deployLargeNet bytecode gaults maxRetries).calls =
        ((List.range mg).map (fun j => (deployLargeSession bytecode (gaults (1 + j))).2)).flatten
          ++ (deployLargeSession bytecode (gaults (mg + 1))).2) ∧
    (∀ k, (createFileSession contents (faults k)).2.head? =
      some (.create ((splitChunks contents chunkSize).headD []))) ∧
    (∀ k, (deployLargeSession bytecode (gaults k)).2.head? =
      some (.create (slice bytecode 0 contractChunkSize))) := by
  refine ⟨?_, ?_, fun k => createFileSession_head contents (faults k),
    fun k => deployLargeSession_head bytecode (gaults k)⟩
  · intro hm hfail hok
    exact executeWithRetryT_failThenOk
      (fun k => createFileSession contents (faults k)) maxRetries m hm hfail hok
  · intro hmg hfail hok
    exact executeWithRetryT_failThenOk
      (fun k => deployLargeSession bytecode (gaults k)) maxRetries mg hmg hfail hok

/-- Closed witness for `chunkedUploadNet_session_retry`: 1-byte payloads whose
first closure execution fails at the create call; the second execution succeeds
and the create call is submitted twice — for `createFile` and for
`deployLargeContract` (whose successful run ends with the contract create). -/
theorem chunkedUploadNet_session_retry_witness :
    (createFileNet [7] (fun k _ => k == 1) 3).result = .ok () ∧
    (createFileNet [7] (fun k _ => k == 1) 3).calls =
      [.create [7], .create [7]] ∧
    (deployLargeNet [9] (fun k _ => k == 1) 3).result = .ok () ∧
    (deployLargeNet [9] (fun k _ => k == 1) 3).calls =
      [.create [9], .create [9], .contractCreate] := by
  obtain ⟨hc, hd, _, _⟩ := chunkedUploadNet_session_retry [7] [9]
    (fun k _ => k == 1) (fun k _ => k == 1) 3 1 1
  have hc2 := hc (by decide)
    (fun k hk1 hk2 => by
      have hk : k = 1 := by omega
      subst hk
      rfl)
    (by rfl)
  have hd2 := hd (by decide)
    (fun k hk1 hk2 => by
      have hk : k = 1 := by omega
      subst hk
      rfl)
    (by rfl)
  refine ⟨hc2.1, ?_, hd2.1, ?_⟩
  · rw [hc2.2.2]
    decide
  · rw [hd2.2.2]
    decide

/-- C1 counterexample: `createFile` of a 6145-byte payload (2 chunks) under a
fault model where only the append of chunk 1 in the first execution fails.
The retry re-runs the whole session, so the create call carrying chunk 0 is
submitted twice, refuting "previously applied chunks are never re-submitted";
the successful run's wire trace repeats the create and the append. -/
theorem createFile_resubmits_applied_chunks :
    (createFileNet (List.replicate 6145 0) faultC1 3).result = .ok () ∧
    (createFileNet (List.replicate 6145 0) faultC1 3).calls =
      [.create (List.replicate 6144 0), .append [0],
       .create (List.replicate 6144 0), .append [0]] ∧
    ((createFileNet (List.replicate 6145 0) faultC1 3).calls.countP isCreateCall) = 2 := by
  have h := executeWithRetryT_failThenOk createFileOpC1 3 1
    (by norm_num)
    (fun k hk1 hk2 => by
      have hk : k = 1 := by omega
      subst hk
      simp only [createFileOpC1]
      rw [createFileSession_faultC1_run1])
    (by
      simp only [createFileOpC1]
      rw [createFileSession_faultC1_run2])
  have hnet : createFileNet (List.replicate 6145 (0 : Nat)) faultC1 3 =
      executeWithRetryT createFileOpC1 3 := by
    unfold createFileNet createFileOpC1
    rfl
  have hcalls : (createFileNet (List.replicate 6145 (0 : Nat)) faultC1 3).calls =
      [.create (List.replicate 6144 0), .append [0],
       .create (List.replicate 6144 0), .append [0]] := by
    rw [hnet, h.2.2]
    rw [show List.range 1 = [0] from rfl]
    simp only [List.map_cons, List.map_nil, List.flatten_cons, List.flatten_nil,
      createFileOpC1]
    rw [Nat.add_zero, show (1 : Nat) + 1 = 2 from rfl]
    rw [createFileSession_faultC1_run1, createFileSession_faultC1_run2]
    rfl
  refine ⟨?_, hcalls, ?_⟩
  · rw [hnet]
    exact h.1
  · rw [hcalls]
    rfl

/-! ## monitorTransaction (utils/transaction-monitor.ts)

```ts
for (let i = 0; i < 10; i++) {
  try {
    const response = await fetch(`${mirrorNodeUrl}/api/v1/transactions/${transactionId}`);
    if (response.ok) {
      const data = await response.json();
      if (data.transactions && data.transactions.length > 0
          && data.transactions[0].consensus_timestamp) {
        console.log('Transaction confirmed:', data);
        return;
      }
    }
  } catch (error) { console.warn('Monitor poll failed:', error); }
  await new Promise(resolve => setTimeout(resolve, 2000));
}
console.warn(`Transaction ${transactionId} not confirmed after 10 polls`);
```

The external read model is a function from the poll index to the observable
poll result.  The function's TypeScript return type is `Promise<void>`: the
terminal state is only logged, which the model records in `state` while the
value handed back to the caller is `returned = ()`. -/

/-- One mirror-node transaction record: its finality timestamp field, which may
be null/absent (`none`). -/
structure TxRecord where
  consensus_timestamp : Option String
deriving Repr, DecidableEq

/-- The JSON body of a successful mirror response: the `transactions` array,
which may be absent. -/
structure MirrorBody where
  transactions : Option (List TxRecord)
deriving Repr, DecidableEq

/-- What one poll observes: the fetch threw, the response was not ok, or a
JSON body was obtained. -/
inductive PollResult where
  | fetchError : PollResult
  | notOk : PollResult
  | ok : MirrorBody → PollResult
deriving Repr, DecidableEq

/-- JavaScript truthiness of the timestamp field: null/undefined and the empty
string are falsy; any other string is truthy. -/
def truthyTimestamp : Option String → Bool
  | none => false
  | some s => !(s == "")

/-- The confirmation test of the loop body:
`data.transactions && data.transactions.length > 0 && data.transactions[0].consensus_timestamp`. -/
def isConfirmedPoll : PollResult → Bool
  | .ok body =>
    match body.transactions with
    | some (t :: _) => truthyTimestamp t.consensus_timestamp
    | _ => false
  | _ => false

/-- The spec's confirmation states. -/
inductive ConfirmationState where
  | Submitted : ConfirmationState
  | Confirmed : ConfirmationState
  | NotFoundYet : ConfirmationState
  | TimedOut : ConfirmationState
deriving Repr, DecidableEq

/-- Observable outcome of one `monitorTransaction` run: how many reads were
performed, the terminal state reached, and the value returned to the caller
(the TS function returns `void`). -/
structure MonitorRun where
  reads : Nat
  state : ConfirmationState
  returned : Unit
deriving Repr, DecidableEq

/-- The polling loop: at most `remaining` more iterations, current poll index
`i`; returns the number of reads performed and the terminal state. -/
def monitorGo (reads : Nat → PollResult) : Nat → Nat → Nat × ConfirmationState
  | _, 0 => (0, .TimedOut)
  | i, remaining + 1 =>
    if isConfirmedPoll (reads i) then (1, .Confirmed)
    else
      let rest := monitorGo reads (i + 1) remaining
      (rest.1 + 1, rest.2)

/-- `monitorTransaction`: poll the read model up to 10 times (hardcoded bound),
returning `void` to the caller. -/
def monitorTransaction (reads : Nat → PollResult) : MonitorRun :=
  let r := monitorGo reads 0 10
  ⟨r.1, r.2, ()⟩

/-- If polls `i..i+m-1` do not confirm and poll `i+m` does (`m < remaining`),
the loop stops Confirmed after `m + 1` reads. -/
theorem monitorGo_confirmAt (reads : Nat → PollResult) :
    ∀ m remaining i, m < remaining →
    (∀ j, i ≤ j → j < i + m → isConfirmedPoll (reads j) = false) →
    isConfirmedPoll (reads (i + m)) = true →
    monitorGo reads i remaining = (m + 1, .Confirmed) := by
  intro m
  induction m with
  | zero =>
    intro remaining i hlt _ hconf
    obtain ⟨r, hr⟩ : ∃ r, remaining = r + 1 := ⟨remaining - 1, by omega⟩
    subst hr
    simp only [Nat.add_zero] at hconf
    simp [monitorGo, hconf]
  | succ p ih =>
    intro remaining i hlt hnot hconf
    obtain ⟨r, hr⟩ : ∃ r, remaining = r + 1 := ⟨remaining - 1, by omega⟩
    subst hr
    have h0 : isConfirmedPoll (reads i) = false := hnot i le_rfl (by omega)
    have hrec := ih r (i + 1) (by omega)
      (fun j hj1 hj2 => hnot j (by omega) (by omega))
      (by rw [show i + 1 + p = i + (p + 1) by omega]; exact hconf)
    simp only [monitorGo, h0, Bool.false_eq_true, if_false, hrec]

/-- If no poll in the window confirms, the loop exhausts it and Times Out after
exactly `remaining` reads. -/
theorem monitorGo_neverConfirm (reads : Nat → PollResult) :
    ∀ remaining i,
    (∀ j, i ≤ j → j < i + remaining → isConfirmedPoll (reads j) = false) →
    monitorGo reads i remaining = (remaining, .TimedOut) := by
  intro remaining
  induction remaining with
  | zero => intro i _; rfl
  | succ r ih =>
    intro i hnot
    have h0 : isConfirmedPoll (reads i) = false := hnot i le_rfl (by omega)
    have hrec := ih (i + 1) (fun j hj1 hj2 => hnot j (by omega) (by omega))
    simp only [monitorGo, h0, Bool.false_eq_true, if_false, hrec]

/-- C6 counterexample: two read models with different terminal states
(immediately Confirmed vs never responding, hence TimedOut) hand the caller the
identical `void` value — the resulting ConfirmationState is logged, not
returned; moreover a record whose finality timestamp is non-null but empty
(`""`, falsy in JS) is not treated as confirmed. -/
theorem monitorTransaction_counterexample :
    (monitorTransaction (fun _ => .ok ⟨some [⟨some "1.2"⟩]⟩)).state = .Confirmed ∧
    (monitorTransaction (fun _ => .fetchError)).state = .TimedOut ∧
    (monitorTransaction (fun _ => .ok ⟨some [⟨some "1.2"⟩]⟩)).returned =
      (monitorTransaction (fun _ => .fetchError)).returned ∧
    (monitorTransaction (fun _ => .ok ⟨some [⟨some ""⟩]⟩)).state = .TimedOut := by
  decide

/-- C6 amended: with a read model that does not confirm for the first
`m < 10` polls and confirms (truthy timestamp on a non-empty transactions
array) at poll `m`, the poller stops Confirmed after exactly `m + 1` reads;
with a read model that never confirms it stops TimedOut after exactly 10 reads
(the hardcoded maxPolls); in both cases the caller receives `void`, the
terminal state being observable in the logs only. -/
theorem monitorTransaction_spec (reads : Nat → PollResult) (m : Nat) :
    (m < 10 → (∀ j, j < m → isConfirmedPoll (reads j) = false) →
      isConfirmedPoll (reads m) = true →
      (monitorTransaction reads).reads = m + 1 ∧
      (monitorTransaction reads).state = .Confirmed) ∧
    ((∀ j, j < 10 → isConfirmedPoll (reads j) = false) →
      (monitorTransaction reads).reads = 10 ∧
      (monitorTransaction reads).state = .TimedOut) ∧
    (monitorTransaction reads).returned = () := by
  refine ⟨?_, ?_, rfl⟩
  · intro hm hnot hconf
    have h := monitorGo_confirmAt reads m 10 0 hm
      (fun j hj1 hj2 => hnot j (by omega))
      (by rw [Nat.zero_add]; exact hconf)
    unfold monitorTransaction
    rw [h]
    exact ⟨rfl, rfl⟩
  · intro hnot
    have h := monitorGo_neverConfirm reads 10 0 (fun j hj1 hj2 => hnot j (by omega))
    unfold monitorTransaction
    rw [h]
    exact ⟨rfl, rfl⟩

/-- Closed witness for `monitorTransaction_spec`: a read model that fails twice
then confirms is Confirmed after 3 reads. -/
theorem monitorTransaction_spec_witness :
    (monitorTransaction
      (fun j => if j < 2 then .fetchError else .ok ⟨some [⟨some "1.2"⟩]⟩)).reads = 3 ∧
    (monitorTransaction
      (fun j => if j < 2 then .fetchError else .ok ⟨some [⟨some "1.2"⟩]⟩)).state =
      .Confirmed := by
  exact (monitorTransaction_spec
      (fun j => if j < 2 then .fetchError else .ok ⟨some [⟨some "1.2"⟩]⟩) 2).1
    (by decide)
    (fun j hj => by
      interval_cases j <;> decide)
    (by decide)

/-! ## submitMessage (consensus.service.ts)

```ts
async submitMessage(topicId, message, encrypt = false) {
  return executeWithRetry(async () => {
    const topic = TopicId.fromString(topicId);
    let messageString = JSON.stringify(message);
    if (encrypt) {
      if (!process.env.HCS_ENCRYPTION_KEY) {
        throw new Error('Missing HCS_ENCRYPTION_KEY in environment');
      }
      messageString = this.encryptMessage(messageString);
    }
    ... const submitResponse = await submitTx.execute(this.client); ...
  });
}
```

The message is modelled post-`JSON.stringify` as an opaque string; the AES-GCM
cipher output is abstracted as the constructor `encrypted` applied to the
plaintext so that the wire payload's provenance is visible.  `net k` says
whether the Hedera submit call of the k-th attempt succeeds. -/

/-- The payload put on the wire by the topic-message submit transaction. -/
inductive MessagePayload where
  | plain : String → MessagePayload
  | encrypted : String → MessagePayload
deriving Repr, DecidableEq

/-- A network interaction of `submitMessage`. -/
inductive SubmitCall where
  | topicMessageSubmit : MessagePayload → SubmitCall
deriving Repr, DecidableEq

/-- Errors thrown inside the `submitMessage` closure. -/
inductive SubmitErr where
  | missingEncryptionKey : SubmitErr
  | network : SubmitErr
deriving Repr, DecidableEq

/-- One execution of the `submitMessage` closure: the missing-key check runs
before any network call when `enc` is set; otherwise the (possibly encrypted)
payload is submitted. -/
def submitMessageAttempt (encryptionKey : Option String) (msg : String)
    (enc netOk : Bool) : Except SubmitErr Unit × List SubmitCall :=
  if enc then
    match encryptionKey with
    | none => (.error .missingEncryptionKey, [])
    | some _ =>
      if netOk then (.ok (), [.topicMessageSubmit (.encrypted msg)])
      else (.error .network, [.topicMessageSubmit (.encrypted msg)])
  else
    if netOk then (.ok (), [.topicMessageSubmit (.plain msg)])
    else (.error .network, [.topicMessageSubmit (.plain msg)])

/-- `submitMessage`: the closure under `executeWithRetry` with the default
`maxRetries = 3`. -/
def submitMessage (encryptionKey : Option String) (msg : String) (enc : Bool)
    (net : Nat → Bool) : RetryOutcome SubmitErr Unit SubmitCall :=
  executeWithRetryT (fun k => submitMessageAttempt encryptionKey msg enc (net k)) 3

/-- C7: with `encrypt = true` and no encryption key configured, `submitMessage`
fails with the missing-key error and performs no network interaction at all —
in particular the plaintext is never transmitted. -/
theorem submitMessage_missingKey (msg : String) (net : Nat → Bool) :
    (submitMessage none msg true net).result = .err .missingEncryptionKey ∧
    (submitMessage none msg true net).calls = [] := by
  have h := executeWithRetryGo_allFail
    (fun k => submitMessageAttempt none msg true (net k))
    (fun _ => .missingEncryptionKey) (fun _ => []) 3 1 (by omega)
    (fun k hk1 hk2 => rfl)
  unfold submitMessage executeWithRetryT
  refine ⟨h.1, ?_⟩
  rw [h.2.2.2]
  decide

/-! ## hashUserId (consensus.service.ts)

```ts
private hashUserId(userId: string): string {
  return crypto.createHash('sha256').update(userId).digest('hex').substring(0, 16);
}
```

SHA-256 per FIPS 180-4 over the UTF-8 bytes of the input; 32-bit words are
naturals reduced mod 2^32.  `substring(0, 16)` on the (pure-ASCII) hex digest
is the first 16 characters. -/

/-- 2^32, the word modulus. -/
def w32 : Nat := 4294967296

/-- 32-bit modular addition. -/
def add32 (a b : Nat) : Nat := (a + b) % w32

/-- 32-bit right rotation of `x` by `n` (for `0 < n < 32`). -/
def rotr32 (n x : Nat) : Nat := ((x >>> n) ||| (x <<< (32 - n))) % w32

/-- FIPS 180-4 Σ0. -/
def bigSigma0 (x : Nat) : Nat := rotr32 2 x ^^^ rotr32 13 x ^^^ rotr32 22 x

/-- FIPS 180-4 Σ1. -/
def bigSigma1 (x : Nat) : Nat := rotr32 6 x ^^^ rotr32 11 x ^^^ rotr32 25 x

/-- FIPS 180-4 σ0. -/
def smallSigma0 (x : Nat) : Nat := rotr32 7 x ^^^ rotr32 18 x ^^^ (x >>> 3)

/-- FIPS 180-4 σ1. -/
def smallSigma1 (x : Nat) : Nat := rotr32 17 x ^^^ rotr32 19 x ^^^ (x >>> 10)

/-- FIPS 180-4 Ch; bitwise complement as xor with the 32-bit all-ones mask. -/
def chFn (x y z : Nat) : Nat := (x &&& y) ^^^ ((x ^^^ 4294967295) &&& z)

/-- FIPS 180-4 Maj. -/
def majFn (x y z : Nat) : Nat := (x &&& y) ^^^ (x &&& z) ^^^ (y &&& z)

/-- The 64 SHA-256 round constants (FIPS 180-4 §4.2.2, written in decimal). -/
def K256 : List Nat := [
  1116352408, 1899447441, 3049323471, 3921009573, 961987163, 1508970993, 2453635748,
  2870763221, 3624381080, 310598401, 607225278, 1426881987, 1925078388, 2162078206,
  2614888103, 3248222580, 3835390401, 4022224774, 264347078, 604807628, 770255983,
  1249150122, 1555081692, 1996064986, 2554220882, 2821834349, 2952996808, 3210313671,
  3336571891, 3584528711, 113926993, 338241895, 666307205, 773529912, 1294757372,
  1396182291, 1695183700, 1986661051, 2177026350, 2456956037, 2730485921, 2820302411,
  3259730800, 3345764771, 3516065817, 3600352804, 4094571909, 275423344, 430227734,
  506948616, 659060556, 883997877, 958139571, 1322822218, 1537002063, 1747873779,
  1955562222, 2024104815, 2227730452, 2361852424, 2428436474, 2756734187, 3204031479,
  3329325298]

/-- The SHA-256 initial hash state (FIPS 180-4 §5.3.3, written in decimal). -/
def H0256 : List Nat := [
  1779033703, 3144134277, 1013904242, 2773480762,
  1359893119, 2600822924, 528734635, 1541459225]

/-- Big-endian byte expansion of `value` to `numBytes` bytes. -/
def toBytesBE (numBytes value : Nat) : List Nat :=
  (List.range numBytes).map (fun i => (value >>> (8 * (numBytes - 1 - i))) % 256)

/-- Big-endian word from bytes. -/
def bytesToWord (bs : List Nat) : Nat := bs.foldl (fun acc b => acc * 256 + b) 0

/-- The 16 words of a 64-byte block. -/
def blockWords (block : List Nat) : List Nat :=
  (List.range 16).map (fun j => bytesToWord (slice block (4 * j) 4))

/-- One message-schedule extension step (word `j`, `16 ≤ j < 64`). -/
def scheduleStep (ws : List Nat) (j : Nat) : List Nat :=
  ws ++ [add32 (add32 (smallSigma1 (ws.getD (j - 2) 0)) (ws.getD (j - 7) 0))
           (add32 (smallSigma0 (ws.getD (j - 15) 0)) (ws.getD (j - 16) 0))]

/-- The full 64-word message schedule from the 16 block words. -/
def fullSchedule (ws : List Nat) : List Nat :=
  (List.range 48).foldl (fun acc i => scheduleStep acc (16 + i)) ws

/-- One compression round on the 8-word working state. -/
def compressStep (W : List Nat) (state : List Nat) (t : Nat) : List Nat :=
  match state with
  | [a, b, c, d, e, f, g, h] =>
    let t1 := add32 (add32 (add32 h (bigSigma1 e))
      (add32 (chFn e f g) (K256.getD t 0))) (W.getD t 0)
    let t2 := add32 (bigSigma0 a) (majFn a b c)
    [add32 t1 t2, a, b, c, add32 d t1, e, f, g]
  | s => s

/-- Compress one 64-byte block into the hash state. -/
def compressBlock (H : List Nat) (block : List Nat) : List Nat :=
  let W := fullSchedule (blockWords block)
  let final := (List.range 64).foldl (compressStep W) H
  List.zipWith add32 H final

/-- SHA-256 of a byte list: pad to a multiple of 64 bytes with `0x80`, zeros
and the 64-bit big-endian bit length, then compress the 64-byte blocks. -/
def sha256 (msg : List Nat) : List Nat :=
  let padded := msg ++ 0x80 :: (List.replicate ((64 - ((msg.length + 9) % 64)) % 64) 0
    ++ toBytesBE 8 (8 * msg.length))
  let Hfinal := (splitChunks padded 64).foldl compressBlock H0256
  (Hfinal.map (toBytesBE 4)).flatten

/-- The lowercase hex alphabet. -/
def hexDigits : List Char := "0123456789abcdef".data

/-- Two lowercase hex characters of one byte. -/
def byteToHex (b : Nat) : List Char :=
  [hexDigits.getD (b / 16 % 16) '0', hexDigits.getD (b % 16) '0']

/-- Lowercase hex encoding of a byte list (`digest('hex')`). -/
def bytesToHex (bs : List Nat) : String := String.mk ((bs.map byteToHex).flatten)

/-- UTF-8 encoding of one unicode scalar. -/
def charUtf8 (c : Char) : List Nat :=
  let n := c.toNat
  if n < 0x80 then [n]
  else if n < 0x800 then [0xC0 ||| (n >>> 6), 0x80 ||| (n &&& 0x3F)]
  else if n < 0x10000 then
    [0xE0 ||| (n >>> 12), 0x80 ||| ((n >>> 6) &&& 0x3F), 0x80 ||| (n &&& 0x3F)]
  else
    [0xF0 ||| (n >>> 18), 0x80 ||| ((n >>> 12) &&& 0x3F),
     0x80 ||| ((n >>> 6) &&& 0x3F), 0x80 ||| (n &&& 0x3F)]

/-- UTF-8 bytes of a string (`hash.update(userId)` encodes UTF-8). -/
def utf8Bytes (s : String) : List Nat := (s.data.map charUtf8).flatten

/-- `hashUserId`: first 16 hex characters of the SHA-256 digest of the UTF-8
input (`hashIpAddress` is the identical function applied to the IP field). -/
def hashUserId (userId : String) : String :=
  String.mk ((bytesToHex (sha256 (utf8Bytes userId))).data.take 16)

/-- One compression round preserves the length of the state list. -/
theorem compressStep_length (W s : List Nat) (t : Nat) :
    (compressStep W s t).length = s.length := by
  unfold compressStep
  rcases s with _ | ⟨a, _ | ⟨b, _ | ⟨c, _ | ⟨d, _ | ⟨e, _ | ⟨f, _ | ⟨g, _ | ⟨h, _ | ⟨i, rest⟩⟩⟩⟩⟩⟩⟩⟩⟩ <;> rfl

/-- Folding compression rounds preserves the state length. -/
theorem foldl_compressStep_length (W : List Nat) :
    ∀ ts H : List Nat, (List.foldl (compressStep W) H ts).length = H.length := by
  intro ts
  induction ts with
  | nil => intro H; rfl
  | cons t ts ih =>
    intro H
    rw [List.foldl_cons, ih, compressStep_length]

/-- Compressing a block preserves the hash-state length. -/
theorem compressBlock_length (H block : List Nat) :
    (compressBlock H block).length = H.length := by
  unfold compressBlock
  rw [List.length_zipWith, foldl_compressStep_length]
  exact Nat.min_self _

/-- Folding block compressions preserves the hash-state length. -/
theorem foldl_compressBlock_length :
    ∀ (blocks : List (List Nat)) (H : List Nat),
      (List.foldl compressBlock H blocks).length = H.length := by
  intro blocks
  induction blocks with
  | nil => intro H; rfl
  | cons b bs ih =>
    intro H
    rw [List.foldl_cons, ih, compressBlock_length]

/-- `toBytesBE n v` has exactly `n` bytes. -/
theorem toBytesBE_length (n v : Nat) : (toBytesBE n v).length = n := by
  unfold toBytesBE
  rw [List.length_map, List.length_range]

/-- Flattened 4-byte expansions of a word list have 4 bytes per word. -/
theorem flattenMap4_length :
    ∀ l : List Nat, ((l.map (toBytesBE 4)).flatten).length = 4 * l.length := by
  intro l
  induction l with
  | nil => rfl
  | cons x xs ih =>
    simp only [List.map_cons, List.flatten_cons, List.length_append, ih,
      toBytesBE_length, List.length_cons]
    ring

/-- The SHA-256 digest always has 32 bytes. -/
theorem sha256_length (msg : List Nat) : (sha256 msg).length = 32 := by
  unfold sha256
  rw [flattenMap4_length, foldl_compressBlock_length]
  rfl

/-- The hex encoding yields two characters per byte. -/
theorem bytesToHex_data_length (bs : List Nat) :
    (bytesToHex bs).data.length = 2 * bs.length := by
  show ((bs.map byteToHex).flatten).length = 2 * bs.length
  induction bs with
  | nil => rfl
  | cons b bs ih =>
    simp only [List.map_cons, List.flatten_cons, List.length_append, ih,
      List.length_cons]
    show 2 + 2 * bs.length = 2 * (bs.length + 1)
    ring

/-- C8: `hashUserId` is the first 16 hex characters of the SHA-256 digest of
its input; it is deterministic, always a 16-character string over the lowercase
hex alphabet, and separates `"user-42"` from `"user-43"` (with the concrete
reference digests). -/
theorem hashUserId_spec :
    (∀ u, hashUserId u = String.mk ((bytesToHex (sha256 (utf8Bytes u))).data.take 16)) ∧
    (∀ u, hashUserId u = hashUserId u) ∧
    (∀ u, (hashUserId u).length = 16) ∧
    (∀ u, ∀ c ∈ (hashUserId u).data, c ∈ hexDigits) ∧
    hashUserId "user-42" = "6d894aa3ee802549" ∧
    hashUserId "user-43" = "85858a4c30f23472" ∧
    hashUserId "user-42" ≠ hashUserId "user-43" := by
  have h42 : hashUserId "user-42" = "6d894aa3ee802549" := by
    set_option maxRecDepth 40000 in decide
  have h43 : hashUserId "user-43" = "85858a4c30f23472" := by
    set_option maxRecDepth 40000 in decide
  refine ⟨fun u => rfl, fun u => rfl, ?_, ?_, h42, h43, ?_⟩
  · intro u
    show ((bytesToHex (sha256 (utf8Bytes u))).data.take 16).length = 16
    rw [List.length_take, bytesToHex_data_length, sha256_length]
    norm_num
  · intro u c hc
    have hc2 : c ∈ (bytesToHex (sha256 (utf8Bytes u))).data :=
      List.take_subset 16 _ hc
    have hc3 : c ∈ ((sha256 (utf8Bytes u)).map byteToHex).flatten := hc2
    rw [List.mem_flatten] at hc3
    obtain ⟨l, hl, hcl⟩ := hc3
    rw [List.mem_map] at hl
    obtain ⟨b, _, rfl⟩ := hl
    have hmem : ∀ k, k < 16 → hexDigits.getD k '0' ∈ hexDigits := by decide
    unfold byteToHex at hcl
    simp only [List.mem_cons, List.not_mem_nil, or_false] at hcl
    rcases hcl with h | h <;> subst h
    · exact hmem _ (Nat.mod_lt _ (by norm_num))
    · exact hmem _ (Nat.mod_lt _ (by norm_num))
  · rw [h42, h43]
    decide

/-- Closed witness for `hashUserId_spec`: the first character of the
pseudonymized `"user-42"` is in the lowercase hex alphabet. -/
theorem hashUserId_spec_witness : '6' ∈ hexDigits :=
  hashUserId_spec.2.2.2.1 "user-42" '6'
    (by rw [show (hashUserId "user-42").data = "6d894aa3ee802549".data from
          congrArg String.data hashUserId_spec.2.2.2.2.1]
        decide)

/-! ## calculateDailyCosts (utils/cost-tracker.ts)

```ts
export async function calculateDailyCosts(htsCount = 10000, hcsCount = 5000, hscsCount = 500) {
  const htsCost = htsCount * 0.001;   // $0.001 per transfer
  const hcsCost = hcsCount * 0.0001;  // $0.0001 per message
  const hscsCost = hscsCount * 0.05;  // $0.05 per execution (avg)
  return { htsTransfers: htsCost, hcsMessages: hcsCost,
           contractExecutions: hscsCost, totalCost: htsCost + hcsCost + hscsCost };
}
```

JavaScript numbers are IEEE-754 binary64.  A finite double is represented
exactly as `(-1)^neg * m * 2^e` with `m = 0` or `2^52 ≤ m < 2^53`;
multiplication and addition are the exact rational operations followed by
round-to-nearest, ties-to-even, which is the IEEE semantics for all values in
the normal finite range (overflow and subnormals do not arise here and are not
modelled).  A decimal literal denotes the double nearest to its decimal value,
obtained by rounding the exact fraction. -/

/-- Floor of log2 by repeated halving, fuel-bounded (`fuel = n` suffices). -/
def natLog2Go : Nat → Nat → Nat
  | 0, _ => 0
  | fuel + 1, n => if n ≤ 1 then 0 else natLog2Go fuel (n / 2) + 1

/-- Floor of log2 of a natural (0 for inputs below 2). -/
def natLog2 (n : Nat) : Nat := natLog2Go n n

/-- Is `2^e ≤ a / b` (for positive `a`, `b`)? -/
def pow2Le (a b : Nat) (e : Int) : Bool :=
  if 0 ≤ e then Nat.ble (b * 2 ^ e.toNat) a else Nat.ble b (a * 2 ^ (-e).toNat)

/-- The binade of `a / b`: the exponent `e` with `2^e ≤ a/b < 2^(e+1)`.
Since `a/b = 2^(log2 a - log2 b) * t` with `t ∈ (1/2, 2)`, the floor is one of
`d-1, d, d+1` for `d = log2 a - log2 b`; the candidates are tested from above. -/
def floorLog2Q (a b : Nat) : Int :=
  let d : Int := (natLog2 a : Int) - (natLog2 b : Int)
  if pow2Le a b (d + 1) then d + 1
  else if pow2Le a b d then d
  else d - 1

/-- A finite IEEE-754 binary64 value `(-1)^neg * m * 2^e`, `m` normalized to
`[2^52, 2^53)` (or 0). -/
structure F64 where
  neg : Bool
  m : Nat
  e : Int
deriving Repr, DecidableEq

/-- Round the positive rational `a / b` to the nearest double
(ties to even), exact for the normal finite range. -/
def roundPos (a b : Nat) : F64 :=
  let e := floorLog2Q a b
  let s : Int := 52 - e
  let num := if 0 ≤ s then a * 2 ^ s.toNat else a
  let den := if 0 ≤ s then b else b * 2 ^ (-s).toNat
  let q := num / den
  let r := num % den
  let m := if 2 * r < den then q
           else if den < 2 * r then q + 1
           else if q % 2 = 0 then q else q + 1
  if m = 2 ^ 53 then ⟨false, 2 ^ 52, e - 51⟩ else ⟨false, m, e - 52⟩

/-- The double denoted by the non-negative decimal literal `a / b`. -/
def jsLit (a b : Nat) : F64 := if a = 0 then ⟨false, 0, 0⟩ else roundPos a b

/-- IEEE binary64 multiplication: exact product of the significands, rounded. -/
def fmul (x y : F64) : F64 :=
  if x.m = 0 || y.m = 0 then ⟨xor x.neg y.neg, 0, 0⟩
  else
    let f := roundPos (x.m * y.m) 1
    ⟨xor x.neg y.neg, f.m, f.e + x.e + y.e⟩

/-- IEEE binary64 addition: exact signed sum after aligning to the smaller
exponent, rounded. -/
def fadd (x y : F64) : F64 :=
  let emin := min x.e y.e
  let ix : Int := (if x.neg then -(x.m : Int) else (x.m : Int)) * 2 ^ (x.e - emin).toNat
  let iy : Int := (if y.neg then -(y.m : Int) else (y.m : Int)) * 2 ^ (y.e - emin).toNat
  let s := ix + iy
  if s = 0 then ⟨false, 0, 0⟩
  else
    let f := roundPos s.natAbs 1
    ⟨decide (s < 0), f.m, f.e + emin⟩

/-- The exact rational value of a finite double. -/
def F64.toRat (x : F64) : ℚ :=
  let mag : ℚ := (x.m : ℚ) * (if 0 ≤ x.e then ((2 ^ x.e.toNat : Nat) : ℚ)
    else ((2 ^ (-x.e).toNat : Nat) : ℚ)⁻¹)
  if x.neg then -mag else mag

/-- The record returned by `calculateDailyCosts` (note: the code stores the
dollar cost, not the count, in the three count-named fields). -/
structure CostTracker where
  htsTransfers : F64
  hcsMessages : F64
  contractExecutions : F64
  totalCost : F64
deriving Repr, DecidableEq

/-- `calculateDailyCosts`: per-class unit costs $0.001, $0.0001, $0.05; the
total is the left-associated double sum `htsCost + hcsCost + hscsCost`. -/
def calculateDailyCosts (htsCount hcsCount hscsCount : F64) : CostTracker :=
  let htsCost := fmul htsCount (jsLit 1 1000)
  let hcsCost := fmul hcsCount (jsLit 1 10000)
  let hscsCost := fmul hscsCount (jsLit 1 20)
  ⟨htsCost, hcsCost, hscsCost, fadd (fadd htsCost hcsCost) hscsCost⟩

/-- C9: at the default counts 10000 / 5000 / 500 the computed total is the
double whose exact value is 35.5 (all three products and both sums round to
exact values here), and in general each field is the count times the class's
unit cost with `totalCost` their double sum. -/
theorem calculateDailyCosts_spec :
    (calculateDailyCosts (jsLit 10000 1) (jsLit 5000 1) (jsLit 500 1)).totalCost =
      ⟨false, 4996180836614144, -47⟩ ∧
    F64.toRat ⟨false, 4996180836614144, -47⟩ = 71 / 2 ∧
    (∀ hts hcs hscs : F64,
      (calculateDailyCosts hts hcs hscs).htsTransfers = fmul hts (jsLit 1 1000) ∧
      (calculateDailyCosts hts hcs hscs).hcsMessages = fmul hcs (jsLit 1 10000) ∧
      (calculateDailyCosts hts hcs hscs).contractExecutions = fmul hscs (jsLit 1 20) ∧
      (calculateDailyCosts hts hcs hscs).totalCost =
        fadd (fadd (fmul hts (jsLit 1 1000)) (fmul hcs (jsLit 1 10000)))
          (fmul hscs (jsLit 1 20))) := by
  refine ⟨?_, ?_, fun _ _ _ => ⟨rfl, rfl, rfl, rfl⟩⟩
  · set_option maxRecDepth 40000 in decide
  · have h : ((47 : Int)).toNat = (47 : Nat) := rfl
    norm_num [F64.toRat, h]

end Afrione
